import Mathlib

/-!
Verification development for the character-level LSTM poetry notebook
(`LSTM.ipynb`).  The notebook's substantive logic — corpus loading,
vocabulary construction, windowed sample indexing, the greedy
autoregressive sampler, and the shape discipline of the training loop —
is embedded as executable Lean definitions, and the design-level
properties of the accompanying specification are proved or refuted
against them.  The neural layers themselves (embedding, LSTM cell,
linear projection) are external library collaborators; where a property
depends only on their shape contract, the model is abstracted as a
function together with that contract.
-/

namespace LSTM

/-! ## Corpus loading and vocabulary (PoemDataset.__init__ / preprocess)

Source:
```
self.poems = open(file_path, 'r', encoding='utf-8').read().split('\n')
text = ''.join(self.poems)
chars = sorted(list(set(text)))
self.char2idx = {ch: i for i, ch in enumerate(chars)}
self.idx2char = {i: ch for i, ch in enumerate(chars)}
```
-/

/-- Splitting the file contents on the newline character, as
`contents.split('\n')` does.  Note `''.split('\n') == ['']`: the poem list
is never empty, even for an empty file. -/
def splitLines (contents : List Char) : List (List Char) :=
  List.splitOn '\n' contents

/-- Concatenation of all poems, `text = ''.join(self.poems)`. -/
def textOf (poems : List (List Char)) : List Char :=
  poems.flatten

/-- Sorted duplicate-free character list, `chars = sorted(list(set(text)))`.
Taking the set keeps one copy of each character and `sorted` orders them,
so the result is the sorted list of the distinct characters of the text. -/
def chars (poems : List (List Char)) : List Char :=
  List.insertionSort (· ≤ ·) (textOf poems).dedup

/-- Position of a character in a character list (first occurrence). -/
def indexIn (c : Char) : List Char → Option Nat
  | [] => none
  | a :: rest => if a = c then some 0 else (indexIn c rest).map (· + 1)

/-- The encoding dictionary `self.char2idx = {ch: i for i, ch in
enumerate(chars)}`: since `chars` is duplicate-free, the dictionary maps a
character to its (unique) position in `chars`; absent characters raise
`KeyError`, modelled by `none`. -/
def char2idx (poems : List (List Char)) (c : Char) : Option Nat :=
  indexIn c (chars poems)

/-- The decoding dictionary `self.idx2char = {i: ch for i, ch in
enumerate(chars)}`: maps a position to the character of `chars` stored
there; out-of-range keys raise `KeyError`, modelled by `none`. -/
def idx2char (poems : List (List Char)) (i : Nat) : Option Char :=
  (chars poems)[i]?

/-! ## Encoding (list comprehensions over char2idx) -/

/-- Errors the sampler can raise at run time. -/
inductive PredictErr where
  /-- `KeyError` from `dataset.char2idx[s]` on a seed character outside the
  vocabulary. -/
  | keyError (c : Char)
  /-- `IndexError` from `[:, -1]` when the position axis of the model
  output is empty. -/
  | indexError
  /-- `KeyError` from `dataset.idx2char[...]` on a code outside the
  decoding dictionary. -/
  | decodeKeyError (i : Nat)
deriving DecidableEq

/-- The comprehension `[char2idx[ch] for ch in s]`, evaluated left to
right: it raises `KeyError` at the first character absent from the
vocabulary, otherwise yields the code list.  Both the training-time
encoding of a corpus line and the sampler's seed encoding are this
computation. -/
def encodeText (poems : List (List Char)) : List Char → Except PredictErr (List Nat)
  | [] => .ok []
  | c :: rest =>
    match char2idx poems c with
    | none => .error (.keyError c)
    | some i => (encodeText poems rest).map (i :: ·)

/-- Total form of the training-time encoding
`encoded_poem = [self.char2idx[ch] for ch in poem]`; for a line of the
corpus the dictionary lookup never fails (proved below), so the default
branch is unreachable there. -/
def encodePoem (poems : List (List Char)) (poem : List Char) : List Nat :=
  poem.map (fun ch => (char2idx poems ch).getD 0)

/-- Pointwise lift of `idx2char` to code lists, raising `KeyError` on the
first code outside the decoding dictionary (the sampler decodes generated
codes one at a time with exactly this lookup). -/
def decodeCodes (poems : List (List Char)) : List Nat → Except PredictErr (List Char)
  | [] => .ok []
  | i :: rest =>
    match idx2char poems i with
    | none => .error (.decodeKeyError i)
    | some c => (decodeCodes poems rest).map (c :: ·)

/-! ## Windowed sequence indexer (PoemDataset.preprocess / __getitem__)

Source:
```
for i in range(0, len(encoded_poem) - self.sequence_length):
    self.data.append(encoded_poem[i:i + self.sequence_length + 1])
...
sequence = torch.tensor(self.data[index][:-1], ...)
target = torch.tensor(self.data[index][1:], ...)
```
-/

/-- Windows of length `L + 1` stored for one encoded line: for
`i in range(0, len(encoded) - L)` the slice `encoded[i : i + L + 1]`.
Python's `range` of a negative bound is empty, matching truncated `Nat`
subtraction. -/
def windows (L : Nat) (encoded : List Nat) : List (List Nat) :=
  (List.range (encoded.length - L)).map (fun i => (encoded.drop i).take (L + 1))

/-- The stored sample list `self.data`: windows of every poem, in line
order then start-index order. -/
def dataOf (L : Nat) (poems : List (List Char)) : List (List Nat) :=
  poems.flatMap (fun poem => windows L (encodePoem poems poem))

/-- One `__getitem__` access: the stored window split into the input
slice `[:-1]` and the target slice `[1:]`. -/
def getItem (data : List (List Nat)) (index : Nat) : List Nat × List Nat :=
  ((data.getD index []).dropLast, (data.getD index []).drop 1)

/-! ## LSTMModel.init_hidden

Source:
```
return (torch.zeros(1, batch_size, self.hidden_dim).to(device),
        torch.zeros(1, batch_size, self.hidden_dim).to(device))
```
-/

/-- Constructor arguments of `LSTMModel.__init__`. -/
structure LSTMModelCfg where
  vocab_size : Nat
  embed_dim : Nat
  hidden_dim : Nat
  num_layers : Nat
deriving DecidableEq

/-- A rank-3 tensor of zeros, `torch.zeros(d1, d2, d3)`, as nested
lists. -/
def zeros3 (d1 d2 d3 : Nat) : List (List (List ℚ)) :=
  List.replicate d1 (List.replicate d2 (List.replicate d3 0))

/-- Embedding of `LSTMModel.init_hidden`: the source hard-codes the first
dimension to `1` (`torch.zeros(1, batch_size, self.hidden_dim)`), it does
not use the configured `num_layers`. -/
def LSTMModel.init_hidden (cfg : LSTMModelCfg) (batch_size : Nat) :
    List (List (List ℚ)) × List (List (List ℚ)) :=
  (zeros3 1 batch_size cfg.hidden_dim, zeros3 1 batch_size cfg.hidden_dim)

/-- Observed shape of a rank-3 nested-list tensor. -/
def tensor3Shape (t : List (List (List ℚ))) : Nat × Nat × Nat :=
  (t.length, (t.headD []).length, ((t.headD []).headD []).length)

/-! ## Autoregressive sampler (predict)

Source:
```
hidden = model.init_hidden(1)
start_input = torch.tensor([[dataset.char2idx[s] for s in start_text]], ...)
predicted_text = start_text
for _ in range(prediction_len):
    output, hidden = model(start_input, hidden)
    predicted_index = torch.argmax(output, dim=2)[:, -1]
    predicted_text += dataset.idx2char[predicted_index.item()]
    start_input = predicted_index.unsqueeze(0)
```
The sampler always works at batch size 1, so the batch axis is dropped:
an input is the list of codes and the model output is one score row per
input position.
-/

/-- The trained network, abstracted: `forward` maps an input code
sequence and a recurrent state to one score row per input position plus
the updated state, and `init_hidden` builds a state for a given batch
size.  The recurrent state type `H` is opaque. -/
structure Model (H : Type) where
  forward : List Nat → H → List (List ℚ) × H
  init_hidden : Nat → H

/-- Tail of the scan performed by `torch.argmax`: `i` is the index of the
next list entry, `best`/`bestVal` the index and value of the running
maximum; a strictly larger value moves the running maximum, so ties keep
the earliest index. -/
def argmaxAux : List ℚ → Nat → Nat → ℚ → Nat
  | [], _, best, _ => best
  | x :: xs, i, best, bestVal =>
    if bestVal < x then argmaxAux xs (i + 1) i x
    else argmaxAux xs (i + 1) best bestVal

/-- Index of the maximum entry of a score row (`torch.argmax` along the
vocabulary axis; first index on ties). -/
def argmax : List ℚ → Nat
  | [] => 0
  | x :: xs => argmaxAux xs 1 0 x

/-- The generation loop of `predict`: at each of the `n` steps, run the
model forward, take the score row at the last position (`[:, -1]`, an
`IndexError` when there is no position), greedily pick the argmax code,
decode it through `idx2char` (a `KeyError` when out of range), append the
character, and continue with only the fresh code as input, keeping the
carried state. -/
def predictLoop {H : Type} (poems : List (List Char)) (m : Model H) :
    Nat → List Nat → H → Except PredictErr (List Char)
  | 0, _, _ => .ok []
  | n + 1, input, hidden =>
    let fwd := m.forward input hidden
    match (fwd.1).getLast? with
    | none => .error .indexError
    | some lastScores =>
      match idx2char poems (argmax lastScores) with
      | none => .error (.decodeKeyError (argmax lastScores))
      | some ch =>
        (predictLoop poems m n [argmax lastScores] fwd.2).map (ch :: ·)

/-- Embedding of `predict`: encode the seed with `char2idx` (raising
`KeyError` on the first out-of-vocabulary character), initialise the
state for batch size 1, run the generation loop, and return the seed
followed by the generated characters. -/
def predict {H : Type} (poems : List (List Char)) (m : Model H)
    (start_text : List Char) (prediction_len : Nat) : Except PredictErr (List Char) :=
  match encodeText poems start_text with
  | .error e => .error e
  | .ok start_input =>
    (predictLoop poems m prediction_len start_input (m.init_hidden 1)).map
      (fun generated => start_text ++ generated)

/-! ## Training loop

Source:
```
data_loader = torch.utils.data.DataLoader(dataset, batch_size=32, shuffle=True)
for epoch in range(10):
    hidden = model.init_hidden(32)
    for batch, (seq, targets) in enumerate(tqdm(data_loader)):
        hidden = tuple([each.data for each in hidden])
        optimizer.zero_grad()
        output, hidden = model(seq, hidden)
        loss = loss_function(output.transpose(1, 2), targets)
        loss.backward()
        optimizer.step()
```
The parameter value and the optimizer update are abstracted (`P` and
`stepFn`); what is embedded is the control flow: the per-epoch state
initialisation for batch size 32, the loader's batching, and the batch
dimension check `nn.LSTM` performs between its input and the supplied
recurrent state.
-/

/-- The shape validation error `nn.LSTM` raises when the supplied hidden
state's batch dimension does not match the input's
(`Expected hidden[0] size (num_layers, input_batch, hidden_dim), got ...`). -/
structure ShapeMismatch where
  hiddenBatch : Nat
  inputBatch : Nat
deriving DecidableEq

/-- Batches drawn by the loader: consecutive chunks of 32 samples; the
final chunk is smaller when the dataset size is not a multiple of 32
(`drop_last` defaults to `False`).  Shuffling permutes the samples but
not the chunk sizes. -/
def batches {S : Type} : List S → List (List S)
  | [] => []
  | s :: rest => ((s :: rest).take 32) :: batches ((s :: rest).drop 32)
termination_by l => l.length
decreasing_by simp; omega

/-- The inner loop of one epoch: for each mini-batch, detach the carried
state, run the forward pass — which fails fast if the state's batch
dimension differs from the batch's size, and otherwise returns a state
sized to the batch — then apply one optimizer update.  Returns the final
parameters and the number of optimizer steps executed. -/
def runBatches {P S : Type} (stepFn : P → List S → P) :
    List (List S) → P → Nat → Nat → Except ShapeMismatch (P × Nat)
  | [], p, _, steps => .ok (p, steps)
  | b :: rest, p, hiddenBatch, steps =>
    if b.length = hiddenBatch then
      runBatches stepFn rest (stepFn p b) b.length (steps + 1)
    else
      .error ⟨hiddenBatch, b.length⟩

/-- One epoch over the dataset `ds`: the recurrent state is created once,
for batch size 32 (`hidden = model.init_hidden(32)`), and threaded through
every mini-batch. -/
def runEpoch {P S : Type} (stepFn : P → List S → P) (ds : List S) (p : P)
    (steps : Nat) : Except ShapeMismatch (P × Nat) :=
  runBatches stepFn (batches ds) p 32 steps

/-- The epoch loop `for epoch in range(epochs)`, parametrised by the
epoch count: runs `runEpoch` the given number of times, threading the
parameters and the optimizer-step count. -/
def trainLoop {P S : Type} (stepFn : P → List S → P) (ds : List S) :
    Nat → P → Nat → Except ShapeMismatch (P × Nat)
  | 0, p, steps => .ok (p, steps)
  | e + 1, p, steps =>
    match runEpoch stepFn ds p steps with
    | .error err => .error err
    | .ok (p', steps') => trainLoop stepFn ds e p' steps'

/-! ## Concrete instances used by witnesses and counterexamples -/

/-- A tiny concrete model over a one-character vocabulary: every position
gets the single score row `[1]`, the state is trivial. -/
def toyModel : Model Unit :=
  ⟨fun input _ => (input.map (fun _ => [(1 : ℚ)]), ()), fun _ => ()⟩

/-- Shape contract of a trained `LSTMModel` at batch size 1 (spec §4.3):
the forward pass emits one score row per input position, each row of
vocabulary width. -/
def shapeOk {H : Type} (poems : List (List Char)) (m : Model H) : Prop :=
  ∀ input hidden, ((m.forward input hidden).1).length = input.length
    ∧ ∀ row ∈ (m.forward input hidden).1, row.length = (chars poems).length

/-! ## Vocabulary lemmas -/

theorem chars_sorted (poems : List (List Char)) :
    List.Sorted (· ≤ ·) (chars poems) :=
  List.sorted_insertionSort _ _

theorem chars_nodup (poems : List (List Char)) : (chars poems).Nodup :=
  (List.perm_insertionSort _ _).nodup_iff.mpr (List.nodup_dedup _)

theorem mem_chars {poems : List (List Char)} {c : Char} :
    c ∈ chars poems ↔ c ∈ textOf poems := by
  rw [chars, (List.perm_insertionSort _ _).mem_iff, List.mem_dedup]

theorem indexIn_eq_some_iff {l : List Char} (hnd : l.Nodup) {c : Char} {i : Nat} :
    indexIn c l = some i ↔ l[i]? = some c := by
  induction l generalizing i with
  | nil => simp [indexIn]
  | cons a as ih =>
    rw [List.nodup_cons] at hnd
    by_cases hac : a = c
    · subst hac
      simp only [indexIn, if_pos rfl]
      constructor
      · rintro h
        rw [← Option.some_inj.mp h]
        simp
      · intro h
        cases i with
        | zero => rfl
        | succ j =>
          exfalso
          apply hnd.1
          simp only [List.getElem?_cons_succ] at h
          obtain ⟨hj, rfl⟩ := List.getElem?_eq_some_iff.mp h
          exact List.getElem_mem hj
    · simp only [indexIn, if_neg hac]
      cases i with
      | zero =>
        simp only [List.getElem?_cons_zero]
        constructor
        · intro h
          exfalso
          obtain ⟨j, _, hj⟩ := Option.map_eq_some'.mp h
          omega
        · intro h
          exact absurd (Option.some_inj.mp h) hac
      | succ j =>
        simp only [List.getElem?_cons_succ]
        rw [← ih hnd.2]
        constructor
        · intro h
          obtain ⟨k, hk, hkj⟩ := Option.map_eq_some'.mp h
          obtain rfl : k = j := by omega
          exact hk
        · intro h
          exact Option.map_eq_some'.mpr ⟨j, h, rfl⟩

theorem indexIn_isSome_iff {l : List Char} {c : Char} :
    (indexIn c l).isSome ↔ c ∈ l := by
  induction l with
  | nil => simp [indexIn]
  | cons a as ih =>
    by_cases hac : a = c
    · subst hac
      simp [indexIn]
    · simp only [indexIn, if_neg hac, List.mem_cons]
      rw [Option.isSome_map']
      rw [ih]
      constructor
      · exact Or.inr
      · rintro (h | h)
        · exact absurd h.symm hac
        · exact h

theorem char2idx_eq_some_iff {poems : List (List Char)} {c : Char} {i : Nat} :
    char2idx poems c = some i ↔ idx2char poems i = some c :=
  indexIn_eq_some_iff (chars_nodup poems)

theorem char2idx_isSome_iff {poems : List (List Char)} {c : Char} :
    (char2idx poems c).isSome ↔ c ∈ textOf poems := by
  rw [char2idx, indexIn_isSome_iff, mem_chars]

theorem encodeText_roundtrip {poems : List (List Char)} :
    ∀ {s : List Char} {codes : List Nat}, encodeText poems s = .ok codes →
      decodeCodes poems codes = .ok s := by
  intro s
  induction s with
  | nil =>
    intro codes h
    obtain rfl : codes = [] := by
      simpa [encodeText] using h.symm
    rfl
  | cons a as ih =>
    intro codes h
    rw [encodeText] at h
    cases hidx : char2idx poems a with
    | none => rw [hidx] at h; exact absurd h (by simp)
    | some i =>
      rw [hidx] at h
      cases hrest : encodeText poems as with
      | error e => rw [hrest] at h; exact absurd h (by simp [Except.map])
      | ok restCodes =>
        rw [hrest] at h
        simp only [Except.map, Except.ok.injEq] at h
        subst h
        rw [decodeCodes, char2idx_eq_some_iff.mp hidx, ih hrest]
        rfl

theorem chars_congr {poems poems' : List (List Char)}
    (h : (textOf poems).toFinset = (textOf poems').toFinset) :
    chars poems = chars poems' := by
  refine List.eq_of_perm_of_sorted ?_ (chars_sorted poems) (chars_sorted poems')
  have hdedup : ((textOf poems).dedup).Perm ((textOf poems').dedup) := by
    refine List.perm_of_nodup_nodup_toFinset_eq
      (List.nodup_dedup _) (List.nodup_dedup _) ?_
    ext a
    simp only [List.mem_toFinset, List.mem_dedup]
    rw [← List.mem_toFinset, h, List.mem_toFinset]
  exact ((List.perm_insertionSort _ _).trans hdedup).trans
    (List.perm_insertionSort _ _).symm

/-! ## Claim theorems: vocabulary -/

/-- C2: the character→code and code→character dictionaries are exact
inverses, their domain is exactly the set of characters occurring in the
corpus, and encoding an in-vocabulary string and then decoding the codes
reproduces the string (round-trip law). -/
theorem vocab_inverse_roundtrip (poems : List (List Char)) :
    (∀ c i, char2idx poems c = some i ↔ idx2char poems i = some c)
    ∧ (∀ c, (char2idx poems c).isSome ↔ c ∈ textOf poems)
    ∧ (∀ s codes, encodeText poems s = .ok codes →
        decodeCodes poems codes = .ok s) :=
  ⟨fun _ _ => char2idx_eq_some_iff,
   fun _ => char2idx_isSome_iff,
   fun _ _ h => encodeText_roundtrip h⟩

/-- Witness for C2 on the two-line corpus "abac"/"bc": encoding "bac"
yields [1, 0, 2] and decoding returns "bac". -/
theorem vocab_inverse_roundtrip_witness :
    encodeText [['a','b','a','c'], ['b','c']] ['b','a','c'] = .ok [1, 0, 2]
    ∧ decodeCodes [['a','b','a','c'], ['b','c']] [1, 0, 2] = .ok ['b','a','c'] :=
  ⟨rfl,
   (vocab_inverse_roundtrip [['a','b','a','c'], ['b','c']]).2.2
     ['b','a','c'] [1, 0, 2] rfl⟩

/-- C3: the vocabulary is a pure function of the corpus's distinct
character set — corpora with the same character set get identical
dictionaries — the code list is the sorted duplicate-free character list,
and every corpus character receives exactly one code, which lies in
[0, V). -/
theorem vocab_pure_function (poems poems' : List (List Char))
    (h : (textOf poems).toFinset = (textOf poems').toFinset) :
    chars poems = chars poems'
    ∧ (∀ c, char2idx poems c = char2idx poems' c)
    ∧ (∀ i, idx2char poems i = idx2char poems' i)
    ∧ List.Sorted (· ≤ ·) (chars poems)
    ∧ (chars poems).Nodup
    ∧ (∀ c ∈ textOf poems,
        ∃! i, char2idx poems c = some i ∧ i < (chars poems).length) := by
  have hc := chars_congr h
  refine ⟨hc, ?_, ?_, chars_sorted poems, chars_nodup poems, ?_⟩
  · intro c
    rw [char2idx, char2idx, hc]
  · intro i
    rw [idx2char, idx2char, hc]
  · intro c hmem
    have hsome : (char2idx poems c).isSome := char2idx_isSome_iff.mpr hmem
    obtain ⟨i, hi⟩ := Option.isSome_iff_exists.mp hsome
    have hlt : i < (chars poems).length := by
      have := char2idx_eq_some_iff.mp hi
      rw [idx2char] at this
      exact (List.getElem?_eq_some_iff.mp this).1
    refine ⟨i, ⟨hi, hlt⟩, ?_⟩
    intro j hj
    rw [hi] at hj
    exact (Option.some_inj.mp hj.1).symm

/-- Witness for C3: the corpora "abac"/"bc" and "caabb" have the same
character set {a, b, c} with different frequencies and orders, and they
produce the same (sorted) code list. -/
theorem vocab_pure_function_witness :
    chars [['a','b','a','c'], ['b','c']] = chars [['c','a','a','b','b']]
    ∧ List.Sorted (· ≤ ·) (chars [['a','b','a','c'], ['b','c']]) := by
  have h := vocab_pure_function [['a','b','a','c'], ['b','c']]
    [['c','a','a','b','b']] (by decide)
  exact ⟨h.1, h.2.2.2.1⟩

/-! ## Indexer lemmas -/

theorem windows_length (L : Nat) (encoded : List Nat) :
    (windows L encoded).length = encoded.length - L := by
  simp [windows]

theorem windows_getElem? (L : Nat) (encoded : List Nat) {i : Nat}
    (hi : i < encoded.length - L) :
    (windows L encoded)[i]? = some ((encoded.drop i).take (L + 1)) := by
  rw [windows, List.getElem?_map, List.getElem?_range hi]
  rfl

theorem getItem_windows (L : Nat) (encoded : List Nat) {i : Nat}
    (hi : i < encoded.length - L) :
    getItem (windows L encoded) i
      = ((encoded.drop i).take L, (encoded.drop (i + 1)).take L) := by
  have hw : (windows L encoded).getD i [] = (encoded.drop i).take (L + 1) := by
    rw [List.getD_eq_getElem?_getD, windows_getElem? L encoded hi]
    rfl
  have hlen : ((encoded.drop i).take (L + 1)).length = L + 1 := by
    rw [List.length_take, List.length_drop]
    omega
  rw [getItem, hw]
  have h1 : ((encoded.drop i).take (L + 1)).dropLast = (encoded.drop i).take L := by
    rw [List.dropLast_eq_take, hlen, Nat.add_sub_cancel, List.take_take,
      Nat.min_eq_left (Nat.le_succ L)]
  have h2 : ((encoded.drop i).take (L + 1)).drop 1 = (encoded.drop (i + 1)).take L := by
    rw [List.drop_take, List.drop_drop, Nat.add_sub_cancel]
  rw [h1, h2]

theorem encodePoem_length (poems : List (List Char)) (poem : List Char) :
    (encodePoem poems poem).length = poem.length := by
  simp [encodePoem]

theorem dataOf_length (L : Nat) (poems : List (List Char)) :
    (dataOf L poems).length = (poems.map (fun poem => poem.length - L)).sum := by
  rw [dataOf, List.length_flatMap]
  congr 1
  refine List.map_congr_left ?_
  intro poem _
  simp only [Function.comp_apply]
  rw [windows_length, encodePoem_length]

/-! ## Claim theorem: windowed sequence indexer -/

/-- C1: a line of encoded length N yields exactly max(0, N − L) stored
windows (so lines with N ≤ L contribute nothing); the i-th sample
returned by `__getitem__` is the pair of slices
(codes[i : i+L], codes[i+1 : i+L+1]) — the target is the input shifted by
one position with the next source character appended — and the dataset's
length is the sum over lines of max(0, line length − L). -/
theorem indexer_samples (L : Nat) (poems : List (List Char)) (codes : List Nat) :
    (windows L codes).length = codes.length - L
    ∧ ((windows L codes).length : ℤ) = max 0 ((codes.length : ℤ) - (L : ℤ))
    ∧ (codes.length ≤ L → windows L codes = [])
    ∧ (∀ i, i < codes.length - L →
        getItem (windows L codes) i
          = ((codes.drop i).take L, (codes.drop (i + 1)).take L))
    ∧ (dataOf L poems).length = (poems.map (fun poem => poem.length - L)).sum := by
  refine ⟨windows_length L codes, ?_, ?_, ?_, dataOf_length L poems⟩
  · rw [windows_length]
    omega
  · intro hle
    rw [windows, Nat.sub_eq_zero_of_le hle]
    rfl
  · intro i hi
    exact getItem_windows L codes hi

/-- Witness for C1 on the spec's concrete scenario: corpus "abac"/"bc"
with L = 2.  Line "abac" encodes to [0, 1, 0, 2] and yields samples
([0,1],[1,0]) and ([1,0],[0,2]); line "bc" yields none; the dataset has
2 samples. -/
theorem indexer_samples_witness :
    getItem (windows 2 (encodePoem [['a','b','a','c'], ['b','c']] ['a','b','a','c'])) 1
      = ([1, 0], [0, 2])
    ∧ windows 2 (encodePoem [['a','b','a','c'], ['b','c']] ['b','c']) = []
    ∧ (dataOf 2 [['a','b','a','c'], ['b','c']]).length = 2 := by
  have h := indexer_samples 2 [['a','b','a','c'], ['b','c']]
    (encodePoem [['a','b','a','c'], ['b','c']] ['a','b','a','c'])
  have h' := indexer_samples 2 [['a','b','a','c'], ['b','c']]
    (encodePoem [['a','b','a','c'], ['b','c']] ['b','c'])
  refine ⟨?_, ?_, ?_⟩
  · rw [h.2.2.2.1 1 (by decide)]
    decide
  · exact h'.2.2.1 (by decide)
  · rw [h.2.2.2.2]
    decide

/-! ## Claim theorems: init_hidden, empty corpus, training loop -/

/-- C5 (evaluation at the failing configuration): with `num_layers = 2`
configured, `init_hidden(3)` still returns two zero tensors of shape
[1, 3, 128] — the first dimension is hard-coded to 1 and does not equal
the configured layer count, contradicting the function's own shape
comment and the claimed shape [num_layers, b, hidden_dim]. -/
theorem init_hidden_ignores_num_layers :
    LSTMModel.init_hidden ⟨10, 64, 128, 2⟩ 3
      = (zeros3 1 3 128, zeros3 1 3 128)
    ∧ tensor3Shape (LSTMModel.init_hidden ⟨10, 64, 128, 2⟩ 3).1 = (1, 3, 128)
    ∧ tensor3Shape (LSTMModel.init_hidden ⟨10, 64, 128, 2⟩ 3).2 = (1, 3, 128)
    ∧ (LSTMModelCfg.mk 10 64 128 2).num_layers = 2
    ∧ (1 : Nat) ≠ 2 :=
  ⟨rfl, rfl, rfl, rfl, by omega⟩

/-- C6 counterexample: on an empty input file the Vocabulary Builder does
not fail — splitting yields the one-element list [""] (so the corpus is
never "empty after splitting"), and preprocessing runs to completion
returning a degenerate size-0 vocabulary and an empty dataset instead of
raising any error. -/
theorem empty_corpus_no_error :
    splitLines [] = [[]]
    ∧ chars (splitLines []) = []
    ∧ (chars (splitLines [])).length = 0
    ∧ dataOf 50 (splitLines []) = [] :=
  ⟨rfl, rfl, rfl, rfl⟩

/-- C6 amended: the Vocabulary Builder silently accepts an empty corpus:
empty file contents split into a single empty line, every dictionary
lookup misses, encoding the empty line succeeds, and the dataset is
empty — no explicit error condition exists in the code. -/
theorem empty_corpus_degenerate (L : Nat) :
    splitLines [] = [[]]
    ∧ chars (splitLines []) = []
    ∧ (∀ c, char2idx (splitLines []) c = none)
    ∧ encodeText (splitLines []) [] = .ok []
    ∧ dataOf L (splitLines []) = [] := by
  refine ⟨rfl, rfl, fun c => rfl, rfl, ?_⟩
  simp [dataOf, windows, encodePoem, splitLines]

/-- C9: invoking the epoch loop with an epoch count of 0 performs no
optimizer step, returns the parameters exactly as initialized, and
reports no error. -/
theorem trainLoop_zero_epochs {P S : Type} (stepFn : P → List S → P)
    (ds : List S) (p : P) :
    trainLoop stepFn ds 0 p 0 = .ok (p, 0) :=
  rfl

theorem runBatches_batches {P S : Type} (stepFn : P → List S → P) :
    ∀ (n : Nat) (ds : List S), ds.length = n → ∀ (p : P) (steps : Nat),
      (ds.length % 32 = 0 → ∃ r, runBatches stepFn (batches ds) p 32 steps = .ok r)
      ∧ (ds.length % 32 ≠ 0 →
          runBatches stepFn (batches ds) p 32 steps
            = .error ⟨32, ds.length % 32⟩) := by
  intro n
  induction n using Nat.strong_induction_on with
  | _ n ih =>
    intro ds hlen p steps
    cases ds with
    | nil =>
      have hb : batches ([] : List S) = [] := by rw [batches]
      rw [hb]
      exact ⟨fun _ => ⟨(p, steps), rfl⟩, fun h => absurd rfl h⟩
    | cons s rest =>
      rw [batches]
      by_cases hge : 32 ≤ (s :: rest).length
      · have htake : ((s :: rest).take 32).length = 32 := by
          rw [List.length_take]
          omega
        have hmod : (s :: rest).length % 32 = ((s :: rest).drop 32).length % 32 := by
          rw [List.length_drop]
          exact Nat.mod_eq_sub_mod hge
        have hrec := ih (((s :: rest).drop 32).length)
          (by rw [List.length_drop]; omega)
          ((s :: rest).drop 32) rfl (stepFn p ((s :: rest).take 32)) (steps + 1)
        rw [runBatches, if_pos htake, htake, hmod]
        exact hrec
      · push_neg at hge
        have htake : (s :: rest).take 32 = s :: rest :=
          List.take_of_length_le (by omega)
        have hne : ¬ ((s :: rest).take 32).length = 32 := by
          rw [htake]
          omega
        have hmod : (s :: rest).length % 32 = (s :: rest).length :=
          Nat.mod_eq_of_lt hge
        rw [runBatches, if_neg hne, htake, hmod]
        refine ⟨fun h => ?_, fun _ => rfl⟩
        exact absurd h (by simp)

/-- C10: one training epoch completes if and only if the dataset length
is a multiple of the mini-batch size 32; otherwise the forward pass on
the final, smaller batch fails with the shape mismatch between the
carried recurrent state (batch dimension 32, initialized once per epoch)
and that batch's size (the dataset length mod 32). -/
theorem epoch_shape_check {P S : Type} (stepFn : P → List S → P) (ds : List S)
    (p : P) (steps : Nat) :
    ((∃ r, runEpoch stepFn ds p steps = .ok r) ↔ ds.length % 32 = 0)
    ∧ (ds.length % 32 ≠ 0 →
        runEpoch stepFn ds p steps = .error ⟨32, ds.length % 32⟩) := by
  have h := runBatches_batches stepFn ds.length ds rfl p steps
  refine ⟨⟨fun hr => ?_, h.1⟩, h.2⟩
  by_contra hne
  obtain ⟨r, hr⟩ := hr
  rw [runEpoch, h.2 hne] at hr
  exact absurd hr (by simp)

/-- Witness for C10: a 5-sample dataset (5 mod 32 = 5 ≠ 0) makes the
epoch fail with the shape mismatch (expected 32, got 5), while a
64-sample dataset (divisible by 32) completes the epoch. -/
theorem epoch_shape_check_witness :
    runEpoch (fun (p : Nat) (_ : List Nat) => p + 1) (List.range 5) 0 0
      = .error ⟨32, 5⟩
    ∧ (∃ r, runEpoch (fun (p : Nat) (_ : List Nat) => p + 1) (List.range 64) 0 0
        = .ok r) := by
  have h5 := epoch_shape_check (fun (p : Nat) (_ : List Nat) => p + 1)
    (List.range 5) 0 0
  have h64 := epoch_shape_check (fun (p : Nat) (_ : List Nat) => p + 1)
    (List.range 64) 0 0
  constructor
  · have := h5.2 (by decide)
    simpa using this
  · exact h64.1.mpr (by decide)

/-! ## Sampler lemmas -/

theorem encodeText_ok_of_mem {poems : List (List Char)} :
    ∀ {s : List Char}, (∀ c ∈ s, c ∈ textOf poems) →
      encodeText poems s = .ok (encodePoem poems s) := by
  intro s
  induction s with
  | nil => intro _; rfl
  | cons a as ih =>
    intro hmem
    have ha : (char2idx poems a).isSome :=
      char2idx_isSome_iff.mpr (hmem a (List.mem_cons_self a as))
    obtain ⟨i, hi⟩ := Option.isSome_iff_exists.mp ha
    rw [encodeText, hi, ih (fun c hc => hmem c (List.mem_cons_of_mem a hc))]
    simp [Except.map, encodePoem, hi]

theorem encodeText_error_keyError {poems : List (List Char)} :
    ∀ {s : List Char} {e : PredictErr}, encodeText poems s = .error e →
      ∃ c, e = .keyError c ∧ c ∈ s ∧ c ∉ textOf poems := by
  intro s
  induction s with
  | nil => intro e h; exact absurd h (by simp [encodeText])
  | cons a as ih =>
    intro e h
    rw [encodeText] at h
    cases ha : char2idx poems a with
    | none =>
      rw [ha] at h
      cases h
      refine ⟨a, rfl, List.mem_cons_self a as, ?_⟩
      intro hmem
      have := char2idx_isSome_iff.mpr hmem
      rw [ha] at this
      cases this
    | some i =>
      rw [ha] at h
      cases hrest : encodeText poems as with
      | error e' =>
        rw [hrest] at h
        simp only [Except.map] at h
        cases h
        obtain ⟨c, hc, hcs, hct⟩ := ih hrest
        exact ⟨c, hc, List.mem_cons_of_mem a hcs, hct⟩
      | ok codes =>
        rw [hrest] at h
        exact absurd h (by simp [Except.map])

theorem encodeText_mem_of_ok {poems : List (List Char)} :
    ∀ {s : List Char} {codes : List Nat}, encodeText poems s = .ok codes →
      ∀ c ∈ s, c ∈ textOf poems := by
  intro s
  induction s with
  | nil => intro codes _ c hc; cases hc
  | cons a as ih =>
    intro codes h c hc
    rw [encodeText] at h
    cases ha : char2idx poems a with
    | none => rw [ha] at h; cases h
    | some i =>
      rw [ha] at h
      cases hrest : encodeText poems as with
      | error e =>
        rw [hrest] at h
        exact absurd h (by simp [Except.map])
      | ok codes' =>
        rcases List.mem_cons.mp hc with rfl | hc'
        · exact char2idx_isSome_iff.mp (by rw [ha]; rfl)
        · exact ih hrest c hc'

theorem encodeText_error_of_not_mem {poems : List (List Char)} {s : List Char}
    (h : ∃ c ∈ s, c ∉ textOf poems) :
    ∃ c, encodeText poems s = .error (.keyError c)
      ∧ c ∈ s ∧ c ∉ textOf poems := by
  cases henc : encodeText poems s with
  | error e =>
    obtain ⟨c, rfl, hcs, hct⟩ := encodeText_error_keyError henc
    exact ⟨c, rfl, hcs, hct⟩
  | ok codes =>
    obtain ⟨c, hcs, hct⟩ := h
    exact absurd (encodeText_mem_of_ok henc c hcs) hct

theorem argmaxAux_lt_or_eq :
    ∀ (xs : List ℚ) (i best : Nat) (v : ℚ),
      argmaxAux xs i best v < i + xs.length ∨ argmaxAux xs i best v = best := by
  intro xs
  induction xs with
  | nil => intro i best v; right; rfl
  | cons x rest ih =>
    intro i best v
    rw [argmaxAux]
    by_cases h : v < x
    · rw [if_pos h]
      rcases ih (i + 1) i x with h' | h'
      · left
        rw [List.length_cons]
        omega
      · left
        rw [h', List.length_cons]
        omega
    · rw [if_neg h]
      rcases ih (i + 1) best v with h' | h'
      · left
        rw [List.length_cons]
        omega
      · right
        exact h'

theorem argmax_lt_length {l : List ℚ} (h : l ≠ []) : argmax l < l.length := by
  cases l with
  | nil => exact absurd rfl h
  | cons x xs =>
    rw [argmax, List.length_cons]
    rcases argmaxAux_lt_or_eq xs 1 0 x with h' | h'
    · omega
    · rw [h']
      omega

theorem predictLoop_ok {H : Type} {poems : List (List Char)} {m : Model H}
    (hm : shapeOk poems m) (hV : 0 < (chars poems).length) :
    ∀ (n : Nat) (input : List Nat) (hidden : H), input ≠ [] →
      ∃ generated, predictLoop poems m n input hidden = .ok generated
        ∧ generated.length = n := by
  intro n
  induction n with
  | zero => exact fun input hidden _ => ⟨[], rfl, rfl⟩
  | succ k ih =>
    intro input hidden hne
    obtain ⟨hrows, hrowlen⟩ := hm input hidden
    have hfne : (m.forward input hidden).1 ≠ [] := by
      intro hnil
      rw [hnil] at hrows
      exact hne (List.eq_nil_of_length_eq_zero hrows.symm)
    obtain ⟨lastScores, hlast⟩ := Option.isSome_iff_exists.mp
      (List.getLast?_isSome.mpr hfne)
    have hmem : lastScores ∈ (m.forward input hidden).1 := by
      obtain ⟨ys, hys⟩ := List.getLast?_eq_some_iff.mp hlast
      rw [hys]
      simp
    have hrlen : lastScores.length = (chars poems).length := hrowlen _ hmem
    have hargmax : argmax lastScores < (chars poems).length := by
      rw [← hrlen]
      refine argmax_lt_length ?_
      intro hnil
      rw [hnil, List.length_nil] at hrlen
      omega
    have hidx : idx2char poems (argmax lastScores)
        = some ((chars poems).get ⟨argmax lastScores, hargmax⟩) :=
      List.getElem?_eq_getElem hargmax
    obtain ⟨generated, hgen, hglen⟩ :=
      ih [argmax lastScores] (m.forward input hidden).2 (by simp)
    refine ⟨(chars poems).get ⟨argmax lastScores, hargmax⟩ :: generated, ?_, ?_⟩
    · simp only [predictLoop, hlast, hidx, hgen, Except.map]
    · rw [List.length_cons, hglen]

theorem predictLoop_ne_keyError {H : Type} (poems : List (List Char)) (m : Model H) :
    ∀ (n : Nat) (input : List Nat) (hidden : H) (c : Char),
      predictLoop poems m n input hidden ≠ .error (.keyError c) := by
  intro n
  induction n with
  | zero => intro input hidden c h; cases h
  | succ k ih =>
    intro input hidden c h
    rw [predictLoop] at h
    cases hlast : ((m.forward input hidden).1).getLast? with
    | none =>
      simp only [hlast] at h
      cases h
    | some lastScores =>
      simp only [hlast] at h
      cases hidx : idx2char poems (argmax lastScores) with
      | none =>
        simp only [hidx] at h
        cases h
      | some ch =>
        simp only [hidx] at h
        cases hrec : predictLoop poems m k [argmax lastScores]
            (m.forward input hidden).2 with
        | error e =>
          rw [hrec] at h
          simp only [Except.map] at h
          cases h
          exact ih [argmax lastScores] (m.forward input hidden).2 c hrec
        | ok generated =>
          rw [hrec] at h
          exact absurd h (by simp [Except.map])

theorem toyModel_shapeOk : shapeOk [['a']] toyModel := by
  intro input hidden
  constructor
  · simp [toyModel]
  · intro row hrow
    simp only [toyModel, List.mem_map] at hrow
    obtain ⟨_, _, hr⟩ := hrow
    rw [← hr]
    decide

/-! ## Claim theorems: autoregressive sampler -/

/-- C4 counterexample: at the empty seed (vacuously in-vocabulary) with
continuation length 1 and a model obeying the one-score-row-per-position
shape contract, the sampler does not produce the seed plus one character:
the model output has no position row, so the last-position selection
`[:, -1]` fails instead. -/
theorem predict_empty_seed_fails :
    predict [['a']] toyModel [] 1 = .error .indexError
    ∧ ∀ r : List Char, predict [['a']] toyModel [] 1 ≠ .ok r :=
  ⟨rfl, fun _ h => by cases h⟩

/-- C4 amended: for a trained model (one score row per input position,
each of vocabulary width), a NONEMPTY seed of in-vocabulary characters,
and any continuation length n, the greedy sampler succeeds and returns
the seed followed by exactly n generated characters; with continuation
length 0 it returns the seed unchanged. -/
theorem predict_greedy {H : Type} (poems : List (List Char)) (m : Model H)
    (seed : List Char) (n : Nat) (hm : shapeOk poems m) (hseed : seed ≠ [])
    (hvocab : ∀ c ∈ seed, c ∈ textOf poems) :
    (∃ generated, predict poems m seed n = .ok (seed ++ generated)
      ∧ generated.length = n)
    ∧ predict poems m seed 0 = .ok seed := by
  have henc := encodeText_ok_of_mem hvocab
  have hV : 0 < (chars poems).length := by
    obtain ⟨c, hc⟩ := List.exists_mem_of_ne_nil seed hseed
    exact List.length_pos_of_mem (mem_chars.mpr (hvocab c hc))
  have hene : encodePoem poems seed ≠ [] := by
    intro hnil
    apply hseed
    have := congrArg List.length hnil
    rw [encodePoem_length, List.length_nil] at this
    exact List.eq_nil_of_length_eq_zero this
  constructor
  · obtain ⟨generated, hgen, hglen⟩ :=
      predictLoop_ok hm hV n (encodePoem poems seed) (m.init_hidden 1) hene
    refine ⟨generated, ?_, hglen⟩
    simp only [predict, henc, hgen, Except.map]
  · obtain ⟨generated, hgen, hglen⟩ :=
      predictLoop_ok hm hV 0 (encodePoem poems seed) (m.init_hidden 1) hene
    obtain rfl : generated = [] := List.eq_nil_of_length_eq_zero hglen
    simp only [predict, henc, hgen, Except.map, List.append_nil]

/-- Witness for C4 amended: over the corpus "a" and the toy constant
model, sampling 3 characters from the seed "a" succeeds with 3 generated
characters, and continuation length 0 returns the seed. -/
theorem predict_greedy_witness :
    (∃ generated, predict [['a']] toyModel ['a'] 3 = .ok (['a'] ++ generated)
      ∧ generated.length = 3)
    ∧ predict [['a']] toyModel ['a'] 0 = .ok ['a'] :=
  predict_greedy [['a']] toyModel ['a'] 3 toyModel_shapeOk
    (by decide) (by decide)

/-- C7: the sampler raises a vocabulary lookup error (the `KeyError` from
`char2idx`) precisely when the seed contains a character outside the
vocabulary — the generation loop itself never raises that error — and
training-time encoding of a corpus line always succeeds because the
vocabulary is built from the very corpus being encoded. -/
theorem sampler_lookup_error {H : Type} (poems : List (List Char)) (m : Model H)
    (seed : List Char) (n : Nat) :
    ((∃ c, predict poems m seed n = .error (.keyError c))
      ↔ ∃ c ∈ seed, c ∉ textOf poems)
    ∧ (∀ poem ∈ poems, encodeText poems poem = .ok (encodePoem poems poem)) := by
  constructor
  · constructor
    · rintro ⟨c, hc⟩
      rw [predict] at hc
      cases henc : encodeText poems seed with
      | error e =>
        simp only [henc] at hc
        cases hc
        obtain ⟨c', hc', hcs, hct⟩ := encodeText_error_keyError henc
        exact ⟨c', hcs, hct⟩
      | ok codes =>
        simp only [henc] at hc
        exfalso
        cases hloop : predictLoop poems m n codes (m.init_hidden 1) with
        | error e =>
          rw [hloop] at hc
          simp only [Except.map] at hc
          cases hc
          exact predictLoop_ne_keyError poems m n codes (m.init_hidden 1) c hloop
        | ok generated =>
          rw [hloop] at hc
          exact absurd hc (by simp [Except.map])
    · intro h
      obtain ⟨c, hcenc, _, _⟩ := encodeText_error_of_not_mem h
      refine ⟨c, ?_⟩
      rw [predict, hcenc]
  · intro poem hpoem
    refine encodeText_ok_of_mem ?_
    intro c hc
    exact List.mem_flatten.mpr ⟨poem, hpoem, hc⟩

/-- Witness for C7: over the corpus "a", sampling from the out-of-
vocabulary seed "b" raises the lookup error, and encoding the corpus
line "a" itself succeeds. -/
theorem sampler_lookup_error_witness :
    (∃ c, predict [['a']] toyModel ['b'] 1 = .error (.keyError c))
    ∧ encodeText [['a']] ['a'] = .ok (encodePoem [['a']] ['a']) := by
  have h := sampler_lookup_error [['a']] toyModel ['b'] 1
  exact ⟨h.1.mpr ⟨'b', by decide, by decide⟩, h.2 ['a'] (by decide)⟩

/-- C8: the sampler is deterministic — it is a pure function of the
vocabulary, the model, the seed string, and the continuation length, so
two calls with identical inputs return identical output text. -/
theorem sampler_deterministic {H : Type} (poems poems' : List (List Char))
    (m m' : Model H) (seed seed' : List Char) (n n' : Nat)
    (hpoems : poems = poems') (hm : m = m') (hseed : seed = seed')
    (hn : n = n') :
    predict poems m seed n = predict poems' m' seed' n' := by
  rw [hpoems, hm, hseed, hn]

/-- Witness for C8: two identical sampling calls on the toy model agree. -/
theorem sampler_deterministic_witness :
    predict [['a']] toyModel ['a'] 2 = predict [['a']] toyModel ['a'] 2 :=
  sampler_deterministic [['a']] [['a']] toyModel toyModel ['a'] ['a'] 2 2
    rfl rfl rfl rfl

end LSTM
